import Mathlib

/-! Formal model of the PMS core persistence layer (src/pms/pms_core.py).
Strings are modelled as lists of characters with Python slicing and
find semantics; the blueprint markdown codec, SHA validation, changelog
CSV, path resolver, atomic writer, transaction manager and the
two-writer locking discipline are translated from the source. The
external libraries the source calls (hashlib sha1, PyYAML safe_load
and safe_dump) are abstracted as parameters bundled in `PyExt`; concrete
toy instances are supplied for evaluation at concrete inputs. -/

abbrev Str := List Char
abbrev FS := Str → Option Str
abbrev YDict := List (Str × Str)
abbrev CsvRow := List Str

def dashes : Str := "---".data
def nlChar : Char := '\n'
def nl : Str := [nlChar]
def colonSp : Str := ": ".data

/-- Python slice endpoint semantics: negative indices count from the end,
endpoints are clamped to the string length. -/
def pyStart (n : Nat) (i : Int) : Nat :=
  if i < 0 then n - min n i.natAbs else min n i.toNat

def pySlice (s : Str) (a b : Int) : Str :=
  (s.take (pyStart s.length b)).drop (pyStart s.length a)

def pyFrom (s : Str) (a : Int) : Str := s.drop (pyStart s.length a)

/-- Python str.startswith, and the prefix test of str.find's scan,
written so that the nil case reduces without inspecting the second
argument. -/
def startsWith : Str → Str → Bool
  | [], _ => true
  | a :: as, s =>
    match s with
    | [] => false
    | b :: bs => a == b && startsWith as bs

/-- Python str.find(sub, start): lowest index at or after start where sub
occurs, and -1 when there is none. -/
def pyFind (s pat : Str) (start : Nat) : Int :=
  match (List.range (s.length + 1)).find?
      (fun j => decide (start ≤ j) && startsWith pat (s.drop j)) with
  | some j => (j : Int)
  | none => -1

def splitlinesAux : Str → Str → List Str
  | [], acc => [acc.reverse]
  | c :: rest, acc =>
    if c = nlChar then
      acc.reverse :: (if rest = [] then [] else splitlinesAux rest [])
    else splitlinesAux rest (c :: acc)

/-- Python str.splitlines for newline-delimited text. -/
def splitlines (s : Str) : List Str := if s = [] then [] else splitlinesAux s []

def isWs (c : Char) : Bool := c = ' ' || c = '\t' || c = nlChar || c = '\r'

/-- Python str.strip. -/
def strip (s : Str) : Str := ((s.dropWhile isWs).reverse.dropWhile isWs).reverse

def digitChr (d : Nat) : Char := Char.ofNat (48 + d)

def natToStrAux : Nat → Nat → Str
  | 0, _ => []
  | fuel + 1, n => if n = 0 then [] else natToStrAux fuel (n / 10) ++ [digitChr (n % 10)]

/-- Decimal rendering of a natural number (Python str(int)). -/
def natToStr (n : Nat) : Str := if n = 0 then [digitChr 0] else natToStrAux n n

def chrDigit (c : Char) : Nat := c.toNat - 48

/-- Decimal parsing of a digit string (Python int(s)). -/
def strToNat (s : Str) : Nat := s.foldl (fun a c => a * 10 + chrDigit c) 0

/-- Python str.split(sep) with explicit fuel (fuel at least the string
length so the scan always terminates). -/
def pySplitAux (sep : Str) : Nat → Str → Str → List Str
  | _, [], acc => [acc.reverse]
  | 0, s, acc => [acc.reverse ++ s]
  | fuel + 1, c :: rest, acc =>
    if startsWith sep (c :: rest) then
      acc.reverse :: pySplitAux sep fuel (List.drop (sep.length - 1) rest) []
    else pySplitAux sep fuel rest (c :: acc)

def pySplit (s sep : Str) : List Str := pySplitAux sep s.length s []

/-- Assoc-list read with default, Python dict.get(k, default). -/
def dget (d : YDict) (k dflt : Str) : Str := (List.lookup k d).getD dflt

/-- Assoc-list write preserving insertion order, Python dict assignment. -/
def dset : YDict → Str → Str → YDict
  | [], k, v => [(k, v)]
  | (k0, v0) :: r, k, v =>
    if k0 = k then (k0, v) :: r else (k0, v0) :: dset r k v

/-- External functions used by pms_core: hashlib.sha1 hexdigest over the
body bytes, yaml.safe_load on a header fragment (None for empty input,
an error for invalid YAML), and yaml.safe_dump with sort_keys=False. -/
structure PyExt where
  sha1 : Str → Str
  parseYaml : Str → Except Unit (Option YDict)
  dumpYaml : YDict → Str

inductive LoadErr
  | notFound
  | integrity
  | yamlError
deriving DecidableEq

def sha1Key : Str := "sha1_hash".data
def lastModKey : Str := "last_modified".data
def versionKey : Str := "version".data

/-- Header scan loop of _update_blueprint_metadata: walks lines[1:]
collecting header lines until a line that strips to ---, returning the
header lines and body_start (0 when no closing delimiter is found). -/
def scanHeader : List Str → Nat → (List Str × Nat)
  | [], _ => ([], 0)
  | l :: rest, i =>
    if strip l = dashes then ([], i + 1)
    else
      let r := scanHeader rest (i + 1)
      (l :: r.1, r.2)

/-- pms_core._update_blueprint_metadata: stamp last_modified and
sha1_hash (hash of the reassembled body) into the YAML header and
rebuild the document text. A YAML parse failure propagates. -/
def update_blueprint_metadata (ext : PyExt) (now text : Str) : Except Unit Str :=
  if startsWith dashes text then
    let lines := splitlines text
    let hb := scanHeader (lines.drop 1) 1
    match ext.parseYaml (List.intercalate nl hb.1) with
    | Except.error e => Except.error e
    | Except.ok o =>
      let header_dict := o.getD []
      let hd1 := dset header_dict lastModKey now
      let body := List.intercalate nl (lines.drop hb.2)
      let hd2 := dset hd1 sha1Key (ext.sha1 body)
      Except.ok (dashes ++ nl ++ strip (ext.dumpYaml hd2) ++ nl ++ dashes ++ nl ++ body)
  else Except.ok text

/-- pms_core._validate_blueprint_sha: missing leading delimiter raises
FileIntegrityError; otherwise the header YAML between index 3 and the
next --- is parsed (a YAML error propagates uncaught), and a non-empty
sha1_hash that differs from the hash of text[header_end+3:] raises
FileIntegrityError. -/
def validate_blueprint_sha (ext : PyExt) (text : Str) : Except LoadErr Unit :=
  if startsWith dashes text then
    match ext.parseYaml (pySlice text 3 (pyFind text dashes 3)) with
    | Except.error _ => Except.error LoadErr.yamlError
    | Except.ok o =>
      if dget (o.getD []) sha1Key [] ≠ [] ∧
          dget (o.getD []) sha1Key []
            ≠ ext.sha1 (pyFrom text (pyFind text dashes 3 + 3)) then
        Except.error LoadErr.integrity
      else Except.ok ()
  else Except.error LoadErr.integrity

/-- Parsed blueprint document. The source returns a dict; early returns
carry only header and content, modelled by none in the derived fields.
The changelog entry (a YAML list, not a string) is not modelled. -/
structure Bpdoc where
  header : YDict
  content : Str
  version : Option Str
  last_modified : Option Str
  sha1_hash : Option Str
deriving DecidableEq

/-- pms_core._parse_blueprint_markdown: YAML failure in the header
degrades to an empty header dict; the body is stripped. -/
def parse_blueprint_markdown (ext : PyExt) (content : Str) : Bpdoc :=
  if startsWith dashes content then
    if pyFind content dashes 3 = -1 then ⟨[], content, none, none, none⟩
    else
      let hd := match ext.parseYaml (pySlice content 3 (pyFind content dashes 3)) with
        | Except.ok o => o.getD []
        | Except.error _ => []
      ⟨hd, strip (pyFrom content (pyFind content dashes 3 + 3)),
        List.lookup versionKey hd, List.lookup lastModKey hd,
        List.lookup sha1Key hd⟩
  else ⟨[], content, none, none, none⟩

/-- pms_core.load restricted to the *blueprint.md branch: a missing file
raises FileNotFoundError, otherwise the bytes are SHA-validated and
then parsed. -/
def load_blueprint (ext : PyExt) (file : Option Str) : Except LoadErr Bpdoc :=
  match file with
  | none => Except.error LoadErr.notFound
  | some content =>
    match validate_blueprint_sha ext content with
    | Except.error e => Except.error e
    | Except.ok _ => Except.ok (parse_blueprint_markdown ext content)

-- Changelog CSV (pms_core._append_blueprint_change / _get_next_change_id).
-- The CSV file is modelled as its list of rows; csv.writer/reader
-- round-trip row lists.

def csvHeaderRow : CsvRow :=
  ["id".data, "author".data, "timestamp".data, "description".data, "status".data]

def descStr : Str := "Blueprint updated via PMS-Core".data
def mergedStr : Str := "merged".data

/-- The id cell of a row, accepted only when the row is non-empty and the
first cell is a non-empty digit string (Python row and row[0].isdigit()). -/
def rowId (r : CsvRow) : Option Nat :=
  match r with
  | [] => none
  | c :: _ => if c ≠ [] ∧ c.all Char.isDigit then some (strToNat c) else none

def idStep (m : Nat) (r : CsvRow) : Nat :=
  match rowId r with
  | some v => max m v
  | none => m

/-- pms_core._get_next_change_id over the rows of the changelog file. -/
def get_next_change_id (st : Option (List CsvRow)) : Nat :=
  match st with
  | none => 1
  | some rows =>
    if rows.length ≤ 1 then 1
    else (rows.drop 1).foldl idStep 0 + 1

/-- The header-creation step of _append_blueprint_change: write the
header row when the file is missing or empty. -/
def ensure_header (st : Option (List CsvRow)) : List CsvRow :=
  match st with
  | none => [csvHeaderRow]
  | some rows => if rows.length = 0 then [csvHeaderRow] else rows

/-- pms_core._append_blueprint_change: create the header row when the
file is missing or empty, then append a row with the next id. -/
def append_blueprint_change (now author : Str) (st : Option (List CsvRow)) :
    List CsvRow :=
  ensure_header st ++
    [[natToStr (get_next_change_id (some (ensure_header st))), author, now,
      descStr, mergedStr]]

/-- State of the changelog file after n appends starting from a
nonexistent file. -/
def changelogAfter (now author : Str) : Nat → Option (List CsvRow)
  | 0 => none
  | n + 1 => some (append_blueprint_change now author (changelogAfter now author n))

def entryRow (now author : Str) (i : Nat) : CsvRow :=
  [natToStr i, author, now, descStr, mergedStr]

/-- pms_core.save restricted to a blueprint target: the payload is
stamped, the changelog is appended, and the stamped text is what the
atomic writer persists. A YAML failure during stamping aborts the save. -/
def save_blueprint (ext : PyExt) (now author payload : Str)
    (changelog : Option (List CsvRow)) : Except Unit (Str × List CsvRow) :=
  match update_blueprint_metadata ext now payload with
  | Except.error e => Except.error e
  | Except.ok p2 => Except.ok (p2, append_blueprint_change now author changelog)

-- Concrete toy instances standing in for PyYAML and hashlib at the
-- specific inputs of the concrete theorems: the hash is the decimal
-- length of the input, the YAML codec handles flat `key: value` maps.

def toyParseLine (l : Str) : Option (Str × Str) :=
  let k := pyFind l colonSp 0
  if k = -1 then none else some (pySlice l 0 k, pyFrom l (k + 2))

def toyParse (s : Str) : Except Unit (Option YDict) :=
  let ls := ((splitlines s).map strip).filter (fun l => !l.isEmpty)
  if ls.isEmpty then Except.ok none
  else
    match ls.mapM toyParseLine with
    | some ps => Except.ok (some ps)
    | none => Except.error ()

def toyDump (d : YDict) : Str :=
  List.intercalate nl (d.map (fun p => p.1 ++ colonSp ++ p.2))

def toyExt : PyExt := ⟨fun s => natToStr s.length, toyParse, toyDump⟩

def now0 : Str := "2025-01-01T00:00:00Z".data
def author0 : Str := "PMS_Core".data

/-- The blueprint payload of the failing round-trip input. -/
def payload0 : Str := "---\na: 1\n---\nBODY".data

/-- The file content produced by saving payload0 under the toy hash. -/
def stored0 : Str :=
  "---\na: 1\nlast_modified: 2025-01-01T00:00:00Z\nsha1_hash: 4\n---\nBODY".data

def chlog1 : List CsvRow := [csvHeaderRow, entryRow now0 author0 1]

-- Path resolver (pms_core._resolve_path). The loaded memory index's
-- paths table is the `paths` parameter (the source caches it for the
-- process lifetime). Path joining is modelled as separator-joined
-- concatenation; the final Path.resolve() normalisation does not
-- affect which scopes resolve versus raise.

def slashSep : Str := "/".data
def joinPath (a b : Str) : Str := a ++ slashSep ++ b

def memoryDirS : Str := "memory".data
def sMemoryIndex : Str := "memory_index".data
def sMemoryIndexYaml : Str := "memory_index.yaml".data
def sProjectStatus : Str := "project_status".data
def sProjectStatusMd : Str := "project_status.md".data
def sBlueprint : Str := "blueprint".data
def sBlueprintChanges : Str := "blueprint_changes".data
def sBacklog : Str := "backlog".data
def sBacklogF : Str := "backlog_f".data
def sRaw : Str := "raw".data
def sUF : Str := "_f".data
def dotYaml : Str := ".yaml".data
def kBlueprintYaml : Str := "blueprint_yaml".data
def kBlueprintChanges : Str := "blueprint_changes".data
def kBacklogModular : Str := "backlog_modular".data
def defBlueprintYaml : Str := "../docs/02_blueprint.yaml".data
def defBlueprintChanges : Str := "../docs/blueprint_changes.csv".data
def defBacklogModular : Str := "../docs/05_backlog/".data

/-- pms_core._resolve_path on a symbolic scope string: built-in scopes,
index-configured scopes, the backlog_f prefix (phase = split("_f")[1],
where an absent element models the caught IndexError), then the
explicit backlog/raw/unknown errors. -/
def resolve_path (paths : YDict) (scope : Str) : Except Unit Str :=
  if scope = sMemoryIndex then Except.ok (joinPath memoryDirS sMemoryIndexYaml)
  else if scope = sProjectStatus then Except.ok (joinPath memoryDirS sProjectStatusMd)
  else if scope = sBlueprint then
    Except.ok (joinPath memoryDirS (dget paths kBlueprintYaml defBlueprintYaml))
  else if scope = sBlueprintChanges then
    Except.ok (joinPath memoryDirS (dget paths kBlueprintChanges defBlueprintChanges))
  else if startsWith sBacklogF scope then
    match (pySplit scope sUF).get? 1 with
    | some phase =>
      Except.ok (joinPath (joinPath memoryDirS (dget paths kBacklogModular defBacklogModular))
        (sBacklogF ++ phase ++ dotYaml))
    | none => Except.error ()
  else if scope = sBacklog then Except.error ()
  else if scope = sRaw then Except.error ()
  else Except.error ()

def exOk {e a : Type} : Except e a → Bool
  | Except.ok _ => true
  | Except.error _ => false

-- Atomic writer (pms_core._atomic_write). The filesystem is a map from
-- paths to byte strings; the failure points of the source (directory
-- creation, the temp-file write, the pre-replace access check, the
-- atomic os.replace) are injected through an environment. os.replace
-- is modelled as the atomic primitive the source documents: it either
-- fully installs the new content or leaves the target untouched.

inductive OSErrKind
  | enospc
  | eperm
  | eother
deriving DecidableEq

inductive AWErr
  | tempDirPerm
  | targetDirPerm
  | diskFull
  | permDenied
  | writeFail
deriving DecidableEq

/-- Error classification of the except-OSError arm: errno 28 is disk
full, PermissionError is a distinct error, anything else is a generic
write failure. -/
def classifyOS : OSErrKind → AWErr
  | OSErrKind.enospc => AWErr.diskFull
  | OSErrKind.eperm => AWErr.permDenied
  | OSErrKind.eother => AWErr.writeFail

structure WriteEnv where
  tmpPath : Str
  mkdirTempFails : Bool
  mkdirTargetFails : Bool
  writeTmpErr : Option OSErrKind
  accessW : Bool
  replaceErr : Option OSErrKind

def fsSet (fs : FS) (p : Str) (v : Option Str) : FS :=
  fun q => if q = p then v else fs q

/-- pms_core._atomic_write: make the temp and target directories, write
the data to a fresh temp file, check write access on an existing
target, then atomically rename the temp file onto the target; on any
failure the temp file is removed best-effort and the error is
classified. -/
def atomic_write (env : WriteEnv) (fs : FS) (target data : Str) :
    FS × Except AWErr Unit :=
  if env.mkdirTempFails then (fs, Except.error AWErr.tempDirPerm)
  else if env.mkdirTargetFails then (fs, Except.error AWErr.targetDirPerm)
  else
    match env.writeTmpErr with
    | some k => (fsSet fs env.tmpPath none, Except.error (classifyOS k))
    | none =>
      let fs1 := fsSet fs env.tmpPath (some data)
      if (fs1 target).isSome && !env.accessW then
        (fsSet fs1 env.tmpPath none, Except.error AWErr.permDenied)
      else
        match env.replaceErr with
        | some k => (fsSet fs1 env.tmpPath none, Except.error (classifyOS k))
        | none => (fsSet (fsSet fs1 target (some data)) env.tmpPath none, Except.ok ())

-- Transaction manager (pms_core.TransactionManager). The in-memory log
-- holds one record per transaction; the integrity validator's verdict
-- and shutil copy failures are abstracted as boolean parameters, and
-- scope resolution as a function parameter.

inductive TStatus
  | active
  | committed
  | rolled_back
  | failed_rollback
deriving DecidableEq

structure Txn where
  id : Str
  scope : Str
  backup_path : Str
  timestamp : Str
  status : TStatus
  original_existed : Bool
deriving DecidableEq

structure TMState where
  fs : FS
  log : List Txn

def pmsTempDir : Str := ".pms_temp".data
def uScore : Str := "_".data
def dotBackup : Str := ".backup".data

/-- The backup path temp_dir/<txnId>_<scope>.backup. -/
def backupName (txnId scope : Str) : Str :=
  joinPath pmsTempDir (txnId ++ uScore ++ scope ++ dotBackup)

/-- TransactionManager._get_transaction: first log record with the id. -/
def get_transaction (log : List Txn) (txnId : Str) : Option Txn :=
  log.find? (fun t => decide (t.id = txnId))

/-- First-match in-place status assignment on the log. -/
def setStatus : List Txn → Str → TStatus → List Txn
  | [], _, _ => []
  | t :: r, txnId, s =>
    if t.id = txnId then { t with status := s } :: r
    else t :: setStatus r txnId s

/-- TransactionManager.begin_transaction: copy the target to a backup
when it exists, and append an active record that notes whether the
target pre-existed. The fresh uuid-based id and the timestamp are
passed in. -/
def begin_transaction (resolve : Str → Str) (st : TMState) (txnId ts scope : Str) :
    TMState :=
  let p := resolve scope
  let b := backupName txnId scope
  let fs1 := if (st.fs p).isSome then fsSet st.fs b (st.fs p) else st.fs
  { fs := fs1,
    log := st.log ++ [⟨txnId, scope, b, ts, TStatus.active, (st.fs p).isSome⟩] }

/-- TransactionManager.rollback_transaction: restore the backup over the
target when the target pre-existed, delete the target when it did not,
delete the backup, and mark rolled_back; a copy failure marks
failed_rollback and raises. -/
def rollback_transaction (resolve : Str → Str) (copyFails : Bool)
    (st : TMState) (txnId : Str) : TMState × Except Unit Bool :=
  match get_transaction st.log txnId with
  | none => (st, Except.ok false)
  | some t =>
    if copyFails then
      ({ st with log := setStatus st.log txnId TStatus.failed_rollback },
        Except.error ())
    else
      let p := resolve t.scope
      let fs1 :=
        if t.original_existed ∧ (st.fs t.backup_path).isSome then
          fsSet st.fs p (st.fs t.backup_path)
        else if ¬t.original_existed ∧ (st.fs p).isSome then fsSet st.fs p none
        else st.fs
      let fs2 := if (fs1 t.backup_path).isSome then fsSet fs1 t.backup_path none else fs1
      ({ fs := fs2, log := setStatus st.log txnId TStatus.rolled_back },
        Except.ok true)

/-- TransactionManager.commit_transaction: a failed validation rolls
back and raises; the raise is then caught by the function's own
exception handler, which rolls back again before re-raising. On
success the backup is deleted and the record marked committed. -/
def commit_transaction (resolve : Str → Str) (valid copyFails : Bool)
    (st : TMState) (txnId : Str) : TMState × Except Unit Bool :=
  match get_transaction st.log txnId with
  | none => (st, Except.ok false)
  | some t =>
    if valid then
      let fs1 := if (st.fs t.backup_path).isSome then fsSet st.fs t.backup_path none
        else st.fs
      ({ fs := fs1, log := setStatus st.log txnId TStatus.committed }, Except.ok true)
    else
      let r1 := rollback_transaction resolve copyFails st txnId
      let r2 := rollback_transaction resolve copyFails r1.1 txnId
      (r2.1, Except.error ())

/-- TransactionManager.rollback_to_version: the version argument is
ignored; the most recent committed transaction for the scope is rolled
back, and False is returned when none exists. -/
def rollback_to_version (resolve : Str → Str) (copyFails : Bool)
    (st : TMState) (scope version : Str) : TMState × Except Unit Bool :=
  let recent := st.log.filter
    (fun t => decide (t.scope = scope) && decide (t.status = TStatus.committed))
  match recent.getLast? with
  | none => (st, Except.ok false)
  | some latest => rollback_transaction resolve copyFails st latest.id

def statusIn (log : List Txn) (txnId : Str) : Option TStatus :=
  (get_transaction log txnId).map (fun t => t.status)

-- Two-writer locking model (pms_core._with_file_lock wrapping
-- pms_core.save on one resolved target, POSIX flock branch). Each
-- writer runs acquire; stamp-and-atomic-write; release. The exclusive
-- non-blocking flock only succeeds when no writer holds the lock; a
-- blocked writer retries, which the interleaving semantics expresses
-- by that writer taking no step. The write step installs the writer's
-- complete payload at the atomic os.replace boundary.

def pcUpd (pc : Bool → Nat) (i : Bool) (v : Nat) : Bool → Nat :=
  fun j => if j = i then v else pc j

structure CState where
  lock : Option Bool
  target : Option Str
  pc : Bool → Nat

inductive CStep (pld : Bool → Str) : CState → CState → Prop
  | acquire (i : Bool) (s : CState) : s.pc i = 0 → s.lock = none →
      CStep pld s ⟨some i, s.target, pcUpd s.pc i 1⟩
  | write (i : Bool) (s : CState) : s.pc i = 1 →
      CStep pld s ⟨s.lock, some (pld i), pcUpd s.pc i 2⟩
  | release (i : Bool) (s : CState) : s.pc i = 2 →
      CStep pld s ⟨none, s.target, pcUpd s.pc i 3⟩

def cInit (t0 : Option Str) : CState := ⟨none, t0, fun _ => 0⟩

def CInv (pld : Bool → Str) (s : CState) : Prop :=
  (∀ i, (s.pc i = 1 ∨ s.pc i = 2) → s.lock = some i) ∧
  ((2 ≤ s.pc false ∨ 2 ≤ s.pc true) →
    (s.target = some (pld false) ∨ s.target = some (pld true)))

-- Concrete inputs and states used by the closed theorems below.

/-- A blueprint file with no front matter at all: no header, hence no
stored hash. -/
def helloContent : Str := "hello".data

/-- A saved blueprint whose stored hash (99) no longer matches the hash
of its body under the toy hash function: a tampered document. -/
def tamperedContent : Str := "---\nsha1_hash: 99\n---\nX".data

def tamperedDict : Option YDict := some [("sha1_hash".data, "99".data)]

/-- A blueprint whose front matter is not valid YAML for the toy codec
(a non-empty header line with no key-value separator). -/
def badYamlContent : Str := "---\nbadline\n---\nBODY".data

/-- A backlog scope with a malformed, non-numeric phase suffix. -/
def badBacklogScope : Str := "backlog_fabc".data

def wTarget : Str := "memory/project_status.md".data
def wOld : Str := "OLD".data
def wNew : Str := "NEW".data
def wTmp : Str := "memory/temp/tmpabc.tmp".data

def wFS : FS := fun q => if q = wTarget then some wOld else none

/-- An environment in which the atomic rename fails with ENOSPC. -/
def wEnvFail : WriteEnv := ⟨wTmp, false, false, none, true, some OSErrKind.enospc⟩

/-- An environment in which every step succeeds. -/
def wEnvOk : WriteEnv := ⟨wTmp, false, false, none, true, none⟩

def rScopeA : Str := "project_status".data
def rPathA : Str := "memory/project_status.md".data
def rResolve : Str → Str := fun _ => rPathA
def rTid : Str := "txn_1_aaaa".data
def rTs : Str := "2025-01-01T00:00:00Z".data
def rContentA : Str := "A".data
def rContentB : Str := "B".data

def rState0 : TMState := ⟨fun q => if q = rPathA then some rContentA else none, []⟩

def cTid : Str := "txn_2_bbbb".data
def cTxn : Txn :=
  ⟨cTid, rScopeA, backupName cTid rScopeA, rTs, TStatus.committed, true⟩

/-- A state whose log holds one committed transaction for the scope. -/
def cState : TMState := ⟨fun q => if q = rPathA then some rContentA else none, [cTxn]⟩

def verX : Str := "v1".data

def aTid : Str := "txn_3_cccc".data
def aTxn : Txn :=
  ⟨aTid, rScopeA, backupName aTid rScopeA, rTs, TStatus.active, true⟩

/-- A state with one active transaction, operated on under a different
transaction id. -/
def aState : TMState := ⟨fun _ => none, [aTxn]⟩

def otherTid : Str := "txn_4_dddd".data

def pldW : Bool → Str := fun i => if i then "B".data else "A".data

def cs0 : CState := cInit none
def cs1 : CState := ⟨some false, none, pcUpd cs0.pc false 1⟩
def cs2 : CState := ⟨some false, some (pldW false), pcUpd cs1.pc false 2⟩
def cs3 : CState := ⟨none, cs2.target, pcUpd cs2.pc false 3⟩
def cs4 : CState := ⟨some true, cs3.target, pcUpd cs3.pc true 1⟩
def cs5 : CState := ⟨some true, some (pldW true), pcUpd cs4.pc true 2⟩
def cs6 : CState := ⟨none, cs5.target, pcUpd cs5.pc true 3⟩

-- Theorems.

/-- C1: round trip fails on the code. Saving the well-formed blueprint
payload0 succeeds and stamps sha1_hash over the body without the
newline that follows the closing delimiter, but load recomputes the
hash over text[header_end+3:], which includes that newline, so the
immediately following load raises FileIntegrityError instead of
returning the document. -/
theorem blueprint_save_load_sha_mismatch :
    save_blueprint toyExt now0 author0 payload0 none = Except.ok (stored0, chlog1) ∧
    load_blueprint toyExt (some stored0) = Except.error LoadErr.integrity :=
  ⟨rfl, rfl⟩

/-- C2 counterexample: a blueprint file with no front matter carries no
sha1_hash at all, yet load raises the integrity error (Blueprint
missing YAML header) instead of accepting the document. -/
theorem load_headerless_integrity_error :
    load_blueprint toyExt (some helloContent) = Except.error LoadErr.integrity :=
  rfl

/-- C7 counterexample: on a blueprint whose front matter is invalid
YAML, load raises the YAML parse error from _validate_blueprint_sha
instead of returning the document with an empty header. -/
theorem load_malformed_header_raises :
    load_blueprint toyExt (some badYamlContent) = Except.error LoadErr.yamlError :=
  rfl

/-- C8 counterexample: the malformed phase suffix of backlog_fabc does
not raise; split("_f")[1] succeeds and the scope resolves to a path. -/
theorem resolve_malformed_backlog_scope_ok :
    exOk (resolve_path [] badBacklogScope) = true :=
  rfl

/-- C6 counterexample: rollback_to_version finds the most recent
committed transaction and calls rollback_transaction on it, moving its
status out of the terminal state committed into rolled_back. -/
theorem committed_status_overwritten_by_rollback :
    statusIn cState.log cTid = some TStatus.committed ∧
    statusIn (rollback_to_version rResolve false cState rScopeA verX).1.log cTid
      = some TStatus.rolled_back :=
  ⟨rfl, rfl⟩

/-- C10: the version argument of rollback_to_version is dead: for any
state, scope and any two version strings the call performs the same
action and returns the same result. -/
theorem rollback_to_version_ignores_version (resolve : Str → Str)
    (copyFails : Bool) (st : TMState) (scope v1 v2 : Str) :
    rollback_to_version resolve copyFails st scope v1
      = rollback_to_version resolve copyFails st scope v2 :=
  rfl

/-- C2 amended: on load of a blueprint file that begins with the front
matter delimiter and whose header parses, a non-empty stored sha1_hash
differing from the hash recomputed over the loaded body raises the
integrity error (an error distinct from the YAML parse error), while
an absent or empty stored hash is accepted without an integrity check
and the parsed document is returned. -/
theorem load_tamper_detection (ext : PyExt) (c : Str) (o : Option YDict)
    (hpre : startsWith dashes c = true)
    (hparse : ext.parseYaml (pySlice c 3 (pyFind c dashes 3)) = Except.ok o) :
    (dget (o.getD []) sha1Key [] ≠ [] →
      dget (o.getD []) sha1Key [] ≠ ext.sha1 (pyFrom c (pyFind c dashes 3 + 3)) →
      load_blueprint ext (some c) = Except.error LoadErr.integrity) ∧
    (dget (o.getD []) sha1Key [] = [] →
      load_blueprint ext (some c) = Except.ok (parse_blueprint_markdown ext c)) ∧
    LoadErr.integrity ≠ LoadErr.yamlError := by
  have hv : validate_blueprint_sha ext c =
      (if dget (o.getD []) sha1Key [] ≠ [] ∧
          dget (o.getD []) sha1Key []
            ≠ ext.sha1 (pyFrom c (pyFind c dashes 3 + 3)) then
        Except.error LoadErr.integrity
      else Except.ok ()) := by
    unfold validate_blueprint_sha
    rw [hpre, hparse]
    rfl
  refine ⟨fun h1 h2 => ?_, fun h0 => ?_, by decide⟩
  · simp only [load_blueprint]
    rw [hv, if_pos ⟨h1, h2⟩]
  · simp only [load_blueprint]
    rw [hv, if_neg (fun h => h.1 h0)]

/-- C2 witness: for the concrete tampered document, whose stored hash 99
differs from the recomputed hash of its body, load raises the
integrity error. -/
theorem load_tamper_detection_witness :
    load_blueprint toyExt (some tamperedContent) = Except.error LoadErr.integrity :=
  (load_tamper_detection toyExt tamperedContent tamperedDict rfl rfl).1
    (by decide) (by decide)

/-- C7 amended: when the front matter of a blueprint is not valid YAML,
the codec _parse_blueprint_markdown does degrade gracefully (empty
header dict, body intact), but load raises the YAML parse error from
_validate_blueprint_sha before the codec ever runs, so the document is
refused. -/
theorem malformed_header_parse_leniency (ext : PyExt) (c : Str)
    (hpre : startsWith dashes c = true)
    (hend : pyFind c dashes 3 ≠ -1)
    (hparse : ext.parseYaml (pySlice c 3 (pyFind c dashes 3)) = Except.error ()) :
    parse_blueprint_markdown ext c =
      ⟨[], strip (pyFrom c (pyFind c dashes 3 + 3)), none, none, none⟩ ∧
    load_blueprint ext (some c) = Except.error LoadErr.yamlError := by
  have hv : validate_blueprint_sha ext c = Except.error LoadErr.yamlError := by
    unfold validate_blueprint_sha
    rw [hpre, hparse]
    rfl
  constructor
  · unfold parse_blueprint_markdown
    rw [hpre, if_neg hend, hparse]
    rfl
  · simp only [load_blueprint, hv]

/-- C7 witness: the concrete malformed-header document parses to an
empty header with its body intact, yet load refuses it. -/
theorem malformed_header_parse_leniency_witness :
    parse_blueprint_markdown toyExt badYamlContent =
      ⟨[], "BODY".data, none, none, none⟩ ∧
    load_blueprint toyExt (some badYamlContent) = Except.error LoadErr.yamlError :=
  malformed_header_parse_leniency toyExt badYamlContent rfl (by decide) rfl

/-- C3: whenever _atomic_write fails — directory creation failure, a
failed temp-file write, the access check, or a failed atomic rename —
the target file is exactly as before the call (same prior content or
prior absence); on success the target holds exactly the written data.
The temp file is distinct from the target (it is created with a unique
name inside the dedicated temp directory). -/
theorem atomic_write_preserves_target (env : WriteEnv) (fs : FS) (target data : Str)
    (htmp : env.tmpPath ≠ target) :
    (exOk (atomic_write env fs target data).2 = false →
      (atomic_write env fs target data).1 target = fs target) ∧
    (exOk (atomic_write env fs target data).2 = true →
      (atomic_write env fs target data).1 target = some data) := by
  obtain ⟨tmp, m1, m2, w, acc, rep⟩ := env
  have ht : ¬(target = tmp) := fun h => htmp h.symm
  unfold atomic_write
  cases m1 <;> cases m2 <;> cases w <;> cases rep <;> cases acc <;>
    constructor <;> intro hr <;>
    by_cases hfs : (fs target).isSome = true <;>
    simp_all [exOk, fsSet, ht]

/-- C3 witness: with a failing atomic rename (disk full) the concrete
target keeps its prior content. -/
theorem atomic_write_preserves_target_witness :
    (atomic_write wEnvFail wFS wTarget wNew).1 wTarget = wFS wTarget :=
  (atomic_write_preserves_target wEnvFail wFS wTarget wNew (by decide)).1 rfl

/-- Helper: find? on a list extended on the right finds the new element
when the original list has no match. -/
theorem find?_append_none {a : Type} (p : a → Bool) (l : List a) (x : a)
    (h : l.find? p = none) (hx : p x = true) : (l ++ [x]).find? p = some x := by
  induction l with
  | nil => simp [List.find?_cons, hx]
  | cons y ys ih =>
    cases hpy : p y with
    | true => rw [List.find?_cons_of_pos _ hpy] at h; exact absurd h (by simp)
    | false =>
      rw [List.find?_cons_of_neg _ (by simp [hpy])] at h
      rw [List.cons_append, List.find?_cons_of_neg _ (by simp [hpy])]
      exact ih h

/-- C5: for any state, beginning a transaction, overwriting the target,
and rolling back restores the exact prior state of the target: prior
content when the target existed, absence when it did not. The backup
path (a fresh name inside the transaction temp area) is distinct from
the target path, and the transaction id is fresh. -/
theorem rollback_restores_prior_state (resolve : Str → Str) (st0 : TMState)
    (txnId ts scope B : Str)
    (hfresh : get_transaction st0.log txnId = none)
    (hbp : backupName txnId scope ≠ resolve scope) :
    (∀ A, st0.fs (resolve scope) = some A →
      (rollback_transaction resolve false
        ⟨fsSet (begin_transaction resolve st0 txnId ts scope).fs (resolve scope) (some B),
          (begin_transaction resolve st0 txnId ts scope).log⟩ txnId).1.fs (resolve scope)
        = some A) ∧
    (st0.fs (resolve scope) = none →
      (rollback_transaction resolve false
        ⟨fsSet (begin_transaction resolve st0 txnId ts scope).fs (resolve scope) (some B),
          (begin_transaction resolve st0 txnId ts scope).log⟩ txnId).1.fs (resolve scope)
        = none) := by
  have hb2 : ¬(resolve scope = backupName txnId scope) := fun h => hbp h.symm
  have hfind : List.find? (fun t => decide (t.id = txnId))
      ((begin_transaction resolve st0 txnId ts scope).log)
      = some ⟨txnId, scope, backupName txnId scope, ts, TStatus.active,
          (st0.fs (resolve scope)).isSome⟩ := by
    unfold get_transaction at hfresh
    unfold begin_transaction
    exact find?_append_none _ _ _ hfresh (by simp)
  constructor
  · intro A hA
    unfold rollback_transaction get_transaction
    simp only [hfind]
    simp [begin_transaction, fsSet, hA, hbp, hb2]
  · intro hA
    unfold rollback_transaction get_transaction
    simp only [hfind]
    by_cases hfb : (st0.fs (backupName txnId scope)).isSome = true <;>
      simp [begin_transaction, fsSet, hA, hbp, hb2, hfb]

/-- C5 witness: with the concrete pre-existing file content A, the
begin-overwrite-rollback sequence restores A byte for byte. -/
theorem rollback_restores_prior_state_witness :
    (rollback_transaction rResolve false
      ⟨fsSet (begin_transaction rResolve rState0 rTid rTs rScopeA).fs
          (rResolve rScopeA) (some rContentB),
        (begin_transaction rResolve rState0 rTid rTs rScopeA).log⟩ rTid).1.fs
      (rResolve rScopeA) = some rContentA :=
  (rollback_restores_prior_state rResolve rState0 rTid rTs rScopeA rContentB
    rfl (by decide)).1 rContentA rfl

/-- Helper: setStatus with a non-active status never produces a record
whose status is active except records that were already in the log. -/
theorem setStatus_active_mem (log : List Txn) (txnId : Str) (s0 : TStatus)
    (hs : s0 ≠ TStatus.active) :
    ∀ t', t' ∈ setStatus log txnId s0 → t'.status = TStatus.active → t' ∈ log := by
  induction log with
  | nil => intro t' hm _; simp [setStatus] at hm
  | cons t r ih =>
    intro t' hm ha
    unfold setStatus at hm
    by_cases h : t.id = txnId
    · rw [if_pos h] at hm
      rcases List.mem_cons.mp hm with h1 | h2
      · subst h1; exact absurd ha hs
      · exact List.mem_cons_of_mem _ h2
    · rw [if_neg h] at hm
      rcases List.mem_cons.mp hm with h1 | h2
      · exact h1 ▸ List.mem_cons_self _ _
      · exact List.mem_cons_of_mem _ (ih t' h2 ha)

/-- Helper: rollback_transaction never sets any record to active. -/
theorem rollback_preserves_nonactive (resolve : Str → Str) (cf : Bool)
    (st : TMState) (txnId : Str) :
    ∀ t', t' ∈ (rollback_transaction resolve cf st txnId).1.log →
      t'.status = TStatus.active →
      ∃ t, t ∈ st.log ∧ t.id = t'.id ∧ t.status = TStatus.active := by
  intro t' hm ha
  unfold rollback_transaction at hm
  cases hf : get_transaction st.log txnId with
  | none => rw [hf] at hm; exact ⟨t', hm, rfl, ha⟩
  | some t =>
    rw [hf] at hm
    cases cf with
    | true =>
      dsimp only at hm
      exact ⟨t', setStatus_active_mem st.log txnId TStatus.failed_rollback
        (by decide) t' hm ha, rfl, ha⟩
    | false =>
      dsimp only at hm
      exact ⟨t', setStatus_active_mem st.log txnId TStatus.rolled_back
        (by decide) t' hm ha, rfl, ha⟩

/-- C6 amended: a transaction starts active and the Transaction Manager
only ever assigns committed, rolled_back or failed_rollback — never
active — so a transaction never re-enters the active state; terminal
states however are not guarded: rollback_transaction (directly or via
rollback_to_version) overwrites committed with rolled_back, and
commit_transaction can overwrite rolled_back with committed. -/
theorem tm_ops_never_set_active (resolve : Str → Str) (valid copyFails : Bool)
    (st : TMState) (txnId scope version : Str) :
    (∀ t', t' ∈ (rollback_transaction resolve copyFails st txnId).1.log →
      t'.status = TStatus.active →
      ∃ t, t ∈ st.log ∧ t.id = t'.id ∧ t.status = TStatus.active) ∧
    (∀ t', t' ∈ (commit_transaction resolve valid copyFails st txnId).1.log →
      t'.status = TStatus.active →
      ∃ t, t ∈ st.log ∧ t.id = t'.id ∧ t.status = TStatus.active) ∧
    (∀ t', t' ∈ (rollback_to_version resolve copyFails st scope version).1.log →
      t'.status = TStatus.active →
      ∃ t, t ∈ st.log ∧ t.id = t'.id ∧ t.status = TStatus.active) := by
  refine ⟨rollback_preserves_nonactive _ _ _ _, ?_, ?_⟩
  · intro t' hm ha
    unfold commit_transaction at hm
    cases hf : get_transaction st.log txnId with
    | none => rw [hf] at hm; exact ⟨t', hm, rfl, ha⟩
    | some t =>
      rw [hf] at hm
      cases valid with
      | true =>
        dsimp only at hm
        exact ⟨t', setStatus_active_mem st.log txnId TStatus.committed
          (by decide) t' hm ha, rfl, ha⟩
      | false =>
        dsimp only at hm
        obtain ⟨t1, hm1, hid1, ha1⟩ :=
          rollback_preserves_nonactive resolve copyFails _ txnId t' hm ha
        obtain ⟨t0, hm0, hid0, ha0⟩ :=
          rollback_preserves_nonactive resolve copyFails st txnId t1 hm1 ha1
        exact ⟨t0, hm0, hid0.trans hid1, ha0⟩
  · intro t' hm ha
    unfold rollback_to_version at hm
    dsimp only at hm
    cases hgl : (st.log.filter
        (fun t => decide (t.scope = scope) && decide (t.status = TStatus.committed))).getLast? with
    | none => rw [hgl] at hm; exact ⟨t', hm, rfl, ha⟩
    | some latest =>
      rw [hgl] at hm
      exact rollback_preserves_nonactive resolve copyFails st latest.id t' hm ha

/-- C6 witness: an operation on a different transaction id leaves the
concrete active record in the log, and the theorem traces it back to
the prior log still active. -/
theorem tm_ops_never_set_active_witness :
    ∃ t, t ∈ aState.log ∧ t.id = aTxn.id ∧ t.status = TStatus.active :=
  (tm_ops_never_set_active rResolve true false aState otherTid rScopeA verX).1
    aTxn (by decide) rfl

/-- Helper: the lock and target invariant holds initially. -/
theorem cinv_init (pld : Bool → Str) (t0 : Option Str) : CInv pld (cInit t0) := by
  constructor
  · intro i h; rcases h with h | h <;> simp [cInit] at h
  · intro h; rcases h with h | h <;> simp [cInit] at h

/-- Helper: every step of the two-writer system preserves the invariant. -/
theorem cinv_step (pld : Bool → Str) {s s' : CState}
    (hinv : CInv pld s) (hs : CStep pld s s') : CInv pld s' := by
  obtain ⟨h1, h2⟩ := hinv
  cases hs with
  | acquire i s hp hl =>
    constructor
    · intro j hj
      by_cases hji : j = i
      · subst hji; rfl
      · have hj' : s.pc j = 1 ∨ s.pc j = 2 := by simpa [pcUpd, hji] using hj
        have := h1 j hj'
        rw [hl] at this
        exact absurd this (by simp)
    · intro htr
      apply h2
      rcases htr with h | h
      · left
        by_cases hfi : (false : Bool) = i
        · simp [pcUpd, hfi] at h
        · simpa [pcUpd, hfi] using h
      · right
        by_cases hti : (true : Bool) = i
        · simp [pcUpd, hti] at h
        · simpa [pcUpd, hti] using h
  | write i s hp =>
    constructor
    · intro j hj
      show s.lock = some j
      by_cases hji : j = i
      · subst hji; exact h1 j (Or.inl hp)
      · exact h1 j (by simpa [pcUpd, hji] using hj)
    · intro _
      cases i
      · exact Or.inl rfl
      · exact Or.inr rfl
  | release i s hp =>
    constructor
    · intro j hj
      by_cases hji : j = i
      · subst hji; simp [pcUpd] at hj
      · have hj' : s.pc j = 1 ∨ s.pc j = 2 := by simpa [pcUpd, hji] using hj
        have hjl := h1 j hj'
        have hil := h1 i (Or.inr hp)
        rw [hil] at hjl
        injection hjl with hh
        exact absurd hh.symm hji
    · intro htr
      apply h2
      rcases htr with h | h
      · left
        by_cases hfi : (false : Bool) = i
        · rw [← hfi] at hp; omega
        · simpa [pcUpd, hfi] using h
      · right
        by_cases hti : (true : Bool) = i
        · rw [← hti] at hp; omega
        · simpa [pcUpd, hti] using h

/-- Helper: the invariant holds in every reachable state. -/
theorem cinv_reachable (pld : Bool → Str) (t0 : Option Str) {s : CState}
    (h : Relation.ReflTransGen (CStep pld) (cInit t0) s) : CInv pld s := by
  induction h with
  | refl => exact cinv_init pld t0
  | tail _ hstep ih => exact cinv_step pld ih hstep

/-- C4: in the two-writer model of save under the file lock, no
reachable state has both writers inside the lock-protected critical
section, and when both saves have completed the target holds exactly
one of the two payloads — never an interleaving — because the target
changes only at the atomic rename. -/
theorem two_writer_serialization (pld : Bool → Str) (t0 : Option Str) (s : CState)
    (h : Relation.ReflTransGen (CStep pld) (cInit t0) s) :
    (¬ ((s.pc false = 1 ∨ s.pc false = 2) ∧ (s.pc true = 1 ∨ s.pc true = 2))) ∧
    (s.pc false = 3 → s.pc true = 3 →
      s.target = some (pld false) ∨ s.target = some (pld true)) := by
  obtain ⟨h1, h2⟩ := cinv_reachable pld t0 h
  constructor
  · rintro ⟨hf, ht⟩
    have e1 := h1 false hf
    have e2 := h1 true ht
    rw [e1] at e2
    injection e2 with e
    exact absurd e (by decide)
  · intro hf _
    exact h2 (Or.inl (by omega))

/-- C4 witness: a complete interleaved run in which writer false saves
first and writer true second ends with the target holding one of the
two payloads. -/
theorem two_writer_serialization_witness :
    cs6.target = some (pldW false) ∨ cs6.target = some (pldW true) :=
  (two_writer_serialization pldW none cs6
    (Relation.ReflTransGen.head (CStep.acquire false cs0 rfl rfl)
      (Relation.ReflTransGen.head (CStep.write false cs1 rfl)
        (Relation.ReflTransGen.head (CStep.release false cs2 rfl)
          (Relation.ReflTransGen.head (CStep.acquire true cs3 rfl rfl)
            (Relation.ReflTransGen.head (CStep.write true cs4 rfl)
              (Relation.ReflTransGen.head (CStep.release true cs5 rfl)
                Relation.ReflTransGen.refl))))))).2 rfl rfl

/-- Helper: the split scan always yields at least one part. -/
theorem pySplitAux_ne_nil (sep : Str) (fuel : Nat) (s acc : Str) :
    pySplitAux sep fuel s acc ≠ [] := by
  induction fuel generalizing s acc with
  | zero => cases s <;> simp [pySplitAux]
  | succ n ih =>
    cases s with
    | nil => simp [pySplitAux]
    | cons c rest =>
      unfold pySplitAux
      by_cases h : startsWith sep (c :: rest) = true
      · rw [if_pos h]; simp
      · rw [if_neg h]; exact ih _ _

/-- Helper: a verified prefix gives an explicit decomposition. -/
theorem startsWith_exists : ∀ {p s : Str}, startsWith p s = true → ∃ r, s = p ++ r := by
  intro p
  induction p with
  | nil => intro s _; exact ⟨s, rfl⟩
  | cons a as ih =>
    intro s h
    cases s with
    | nil => simp [startsWith] at h
    | cons b bs =>
      simp only [startsWith, Bool.and_eq_true, beq_iff_eq] at h
      obtain ⟨hab, h2⟩ := h
      obtain ⟨r, hr⟩ := ih h2
      exact ⟨r, by rw [hab, hr]; rfl⟩

/-- Helper: splitting a backlog_f-prefixed scope on _f finds the
separator inside the prefix, so the scan returns backlog followed by
the split of the remainder. -/
theorem pySplit_backlog (r : Str) :
    pySplit (sBacklogF ++ r) sUF
      = "backlog".data :: pySplitAux sUF (r.length + 1) r [] := rfl

/-- Helper: split("_f")[1] always exists on a backlog_f-prefixed scope,
so the IndexError arm is dead code. -/
theorem backlog_split_get (scope : Str)
    (h : startsWith sBacklogF scope = true) :
    ∃ ph, (pySplit scope sUF).get? 1 = some ph := by
  obtain ⟨r, rfl⟩ := startsWith_exists h
  rw [pySplit_backlog]
  cases hx : pySplitAux sUF (r.length + 1) r [] with
  | nil => exact absurd hx (pySplitAux_ne_nil _ _ _ _)
  | cons a l => exact ⟨a, by simp [hx]⟩

/-- C8 amended: resolve raises the unsupported-scope input error — and
never falls back to a default path — exactly for the unknown scopes,
scope backlog without a phase, and scope raw; every scope beginning
with backlog_f, including a missing or non-numeric phase suffix,
resolves to a path (split("_f")[1] always succeeds, so the guard the
spec assumes for malformed suffixes is dead). -/
theorem resolve_error_domain (paths : YDict) (scope : Str) :
    exOk (resolve_path paths scope) = true ↔
      (scope = sMemoryIndex ∨ scope = sProjectStatus ∨ scope = sBlueprint ∨
        scope = sBlueprintChanges ∨ startsWith sBacklogF scope = true) := by
  by_cases h1 : scope = sMemoryIndex
  · exact iff_of_true (by rw [h1]; rfl) (Or.inl h1)
  by_cases h2 : scope = sProjectStatus
  · exact iff_of_true (by rw [h2]; rfl) (Or.inr (Or.inl h2))
  by_cases h3 : scope = sBlueprint
  · exact iff_of_true (by rw [h3]; rfl) (Or.inr (Or.inr (Or.inl h3)))
  by_cases h4 : scope = sBlueprintChanges
  · exact iff_of_true (by rw [h4]; rfl) (Or.inr (Or.inr (Or.inr (Or.inl h4))))
  by_cases h5 : startsWith sBacklogF scope = true
  · refine iff_of_true ?_ (Or.inr (Or.inr (Or.inr (Or.inr h5))))
    obtain ⟨ph, hph⟩ := backlog_split_get scope h5
    unfold resolve_path
    rw [if_neg h1, if_neg h2, if_neg h3, if_neg h4, if_pos h5, hph]
    rfl
  · refine iff_of_false ?_ ?_
    · intro hcon
      unfold resolve_path at hcon
      rw [if_neg h1, if_neg h2, if_neg h3, if_neg h4, if_neg h5, ite_self,
        ite_self] at hcon
      simp [exOk] at hcon
    · rintro (h | h | h | h | h)
      exacts [h1 h, h2 h, h3 h, h4 h, h5 h]

/-- Helper: the digit character of d decodes back to d. -/
theorem chrDigit_digitChr (d : Nat) (h : d < 10) : chrDigit (digitChr d) = d := by
  interval_cases d <;> rfl

/-- Helper: the digit character of d is a digit. -/
theorem isDigit_digitChr (d : Nat) (h : d < 10) : (digitChr d).isDigit = true := by
  interval_cases d <;> rfl

/-- Helper: folding the decimal parser over the rendered digits of n
appends n to the accumulator positionally. -/
theorem natToStrAux_foldl (fuel : Nat) : ∀ n a, n ≤ fuel →
    (natToStrAux fuel n).foldl (fun x c => x * 10 + chrDigit c) a
      = a * 10 ^ (natToStrAux fuel n).length + n := by
  induction fuel with
  | zero =>
    intro n a h
    have h0 : n = 0 := Nat.le_zero.mp h
    subst h0
    simp [natToStrAux]
  | succ m ih =>
    intro n a h
    by_cases h0 : n = 0
    · subst h0; simp [natToStrAux]
    · have hlt : n / 10 ≤ m := by
        have := Nat.div_lt_self (Nat.pos_of_ne_zero h0) (by norm_num : 1 < 10)
        omega
      simp only [natToStrAux, if_neg h0]
      rw [List.foldl_append, ih (n / 10) a hlt]
      have key : n / 10 * 10 + n % 10 = n := by omega
      simp only [List.foldl_cons, List.foldl_nil, List.length_append,
        List.length_cons, List.length_nil]
      rw [chrDigit_digitChr _ (Nat.mod_lt _ (by norm_num))]
      calc (a * 10 ^ (natToStrAux m (n / 10)).length + n / 10) * 10 + n % 10
          = a * 10 ^ (natToStrAux m (n / 10)).length * 10
              + (n / 10 * 10 + n % 10) := by ring
        _ = a * 10 ^ ((natToStrAux m (n / 10)).length + (0 + 1)) + n := by
            rw [key]; ring

/-- Helper: the decimal rendering of a number is never empty. -/
theorem natToStr_ne_nil (n : Nat) : natToStr n ≠ [] := by
  unfold natToStr
  by_cases h : n = 0
  · simp [h]
  · rw [if_neg h]
    obtain ⟨m, rfl⟩ := Nat.exists_eq_succ_of_ne_zero h
    simp [natToStrAux]

/-- Helper: every character of the digit scan is a digit. -/
theorem natToStrAux_digits (fuel : Nat) : ∀ n c, c ∈ natToStrAux fuel n →
    c.isDigit = true := by
  induction fuel with
  | zero => intro n c h; simp [natToStrAux] at h
  | succ m ih =>
    intro n c h
    by_cases h0 : n = 0
    · simp [natToStrAux, h0] at h
    · simp only [natToStrAux, if_neg h0] at h
      rcases List.mem_append.mp h with h1 | h2
      · exact ih _ c h1
      · rw [List.mem_singleton.mp h2]
        exact isDigit_digitChr _ (Nat.mod_lt _ (by norm_num))

/-- Helper: the decimal rendering consists of digit characters only. -/
theorem natToStr_digits (n : Nat) : (natToStr n).all Char.isDigit = true := by
  rw [List.all_eq_true]
  intro c hc
  unfold natToStr at hc
  by_cases h : n = 0
  · rw [if_pos h] at hc
    rw [List.mem_singleton.mp hc]
    exact isDigit_digitChr 0 (by norm_num)
  · rw [if_neg h] at hc
    exact natToStrAux_digits n n c hc

/-- Helper: parsing the decimal rendering of n returns n. -/
theorem strToNat_natToStr (n : Nat) : strToNat (natToStr n) = n := by
  unfold natToStr strToNat
  by_cases h : n = 0
  · subst h; rfl
  · rw [if_neg h]
    have := natToStrAux_foldl n n 0 (le_refl n)
    simpa using this

/-- Helper: the id cell of a generated changelog row parses back to its
id. -/
theorem rowId_entryRow (now author : Str) (m : Nat) :
    rowId (entryRow now author m) = some m := by
  show (if natToStr m ≠ [] ∧ (natToStr m).all Char.isDigit = true then
      some (strToNat (natToStr m)) else none) = some m
  rw [if_pos ⟨natToStr_ne_nil m, natToStr_digits m⟩, strToNat_natToStr]

/-- Helper: the running maximum over rows with ids 1..n is n. -/
theorem idFold_entries (now author : Str) (n : Nat) :
    ((List.range n).map (fun k => entryRow now author (k + 1))).foldl idStep 0
      = n := by
  induction n with
  | zero => rfl
  | succ m ih =>
    rw [List.range_succ, List.map_append, List.foldl_append, ih]
    simp [idStep, rowId_entryRow]

/-- C9: appending N+1 changelog entries to a nonexistent (or empty)
changelog yields the header row followed by rows with ids 1..N+1 in
order: the header is created on the first append and each new id is
the maximum of the existing ids plus one. -/
theorem changelog_ids_monotone (now author : Str) (N : Nat) :
    changelogAfter now author (N + 1) =
      some (csvHeaderRow ::
        (List.range (N + 1)).map (fun k => entryRow now author (k + 1))) := by
  induction N with
  | zero => rfl
  | succ m ih =>
    have hE : changelogAfter now author (m + 1 + 1)
        = some (append_blueprint_change now author
            (some (csvHeaderRow ::
              (List.range (m + 1)).map (fun k => entryRow now author (k + 1))))) := by
      unfold changelogAfter
      rw [ih]
    rw [hE]
    congr 1
    have hlen : (csvHeaderRow ::
        (List.range (m + 1)).map (fun k => entryRow now author (k + 1))).length
        = m + 2 := by
      simp
    have hens : ensure_header (some (csvHeaderRow ::
        (List.range (m + 1)).map (fun k => entryRow now author (k + 1))))
        = csvHeaderRow ::
          (List.range (m + 1)).map (fun k => entryRow now author (k + 1)) := by
      simp only [ensure_header]
      rw [if_neg (by rw [hlen]; omega)]
    have hnext : get_next_change_id (some (csvHeaderRow ::
        (List.range (m + 1)).map (fun k => entryRow now author (k + 1))))
        = m + 2 := by
      simp only [get_next_change_id]
      rw [if_neg (by rw [hlen]; omega)]
      have : List.drop 1 (csvHeaderRow ::
          (List.range (m + 1)).map (fun k => entryRow now author (k + 1)))
          = (List.range (m + 1)).map (fun k => entryRow now author (k + 1)) := rfl
      rw [this, idFold_entries]
    unfold append_blueprint_change
    rw [hens, hnext]
    conv_rhs => rw [List.range_succ, List.map_append]
    rfl
